import Mathlib

/-!
Shallow embedding of the epos collection store (`collection.go`): the key
sharder, the identifier allocator persisted under the reserved `"_next_id"`
key, index-log replay, and the collection operations, together with theorems
checking the specification's claims about them.

Modelling conventions:
* Go strings fed to the sharder are lists of characters (the keys involved are
  ASCII, where Go's byte slicing and character slicing agree).
* The external diskv store is an association list from keys to blobs, with
  fault injection: writing a key listed in `failKeys` fails with an I/O error
  and leaves the contents unchanged.
* Byte encodings are produced by external library code (`encoding/binary`
  varints, `encoding/json`), so a blob is modelled by its decoded content
  tagged with which encoder produced it.
* `int64` arithmetic wraps; the single addition the code performs
  (`next_id + 1`) goes through `wrap64`.
-/

namespace Epos

/-- Association-list lookup, modelling a read of a Go map / diskv key. -/
def lookupKV {α : Type} : List (String × α) → String → Option α
  | [], _ => none
  | (k', v) :: rest, k => if k' = k then some v else lookupKV rest k

/-- Association-list overwrite-or-append, modelling a Go map / diskv write. -/
def upsertKV {α : Type} : List (String × α) → String → α → List (String × α)
  | [], k, v => [(k, v)]
  | (k', v') :: rest, k, v =>
      if k' = k then (k, v) :: rest else (k', v') :: upsertKV rest k v

/-- Association-list deletion, modelling Go's `delete(m, k)` / diskv erase. -/
def eraseKV {α : Type} (l : List (String × α)) (k : String) : List (String × α) :=
  l.filter (fun p => p.1 ≠ k)

/-- `transformFunc` pads short keys with Go's `fmt.Sprintf("%04s", s)`: fmt's
zero flag pads with the character `'0'` (for every verb, strings included) up
to width 4. -/
def sprintf04s (s : List Char) : List Char :=
  if s.length < 4 then List.replicate (4 - s.length) '0' ++ s else s

/-- `transformFunc` from `collection.go`: the diskv sharding function. The
reserved key `"_next_id"` maps to no path segments; any other key is padded
(when shorter than 4) or cut to its last 4 characters, and split into the two
2-character segments `[data[2:4], data[0:2]]`. -/
def transformFunc (s : List Char) : List (List Char) :=
  if s = String.toList "_next_id" then []
  else
    let data := if s.length < 4 then sprintf04s s else s.drop (s.length - 4)
    [(data.drop 2).take 2, data.take 2]

/-- A value stored in the diskv store, modelled by its decoded content (the
byte encodings are produced by external library code). -/
inductive Blob where
  | varintOf (n : Int)
  | jsonOf (payload : String)
  deriving DecidableEq

/-- `binary.Varint` applied to the data read for a key, as `getNextId` uses it:
the read error is ignored, a missing key gives nil data and
`binary.Varint(nil) = 0`; a varint blob decodes to its value. (A json blob is
never read as a varint by the code; decoding it is modelled as 0.) -/
def varintRead : Option Blob → Int
  | some (Blob.varintOf n) => n
  | _ => 0

/-- The external diskv store: contents plus write-fault injection. -/
structure SStore where
  data : List (String × Blob)
  failKeys : List String
  deriving DecidableEq

/-- `store.Read`: `none` models diskv's "key not found" error. -/
def SStore.read (st : SStore) (k : String) : Option Blob :=
  lookupKV st.data k

/-- `store.Write`: a write to a key under fault injection fails with an I/O
error and leaves the contents unchanged; otherwise the key is overwritten. -/
def SStore.write (st : SStore) (k : String) (v : Blob) : Option String × SStore :=
  if k ∈ st.failKeys then (some "i/o error", st)
  else (none, { st with data := upsertKV st.data k v })

/-- `store.Erase`: removes the key. -/
def SStore.erase (st : SStore) (k : String) : Option String × SStore :=
  (none, { st with data := eraseKV st.data k })

/-- An index-log entry. Modelled from the spec: `{ fieldValue: bytes,
identifier: Identifier, deleted: bool }` (the `indexEntry` type and its binary
codec live in a repository file not under `src/`). The byte offset `fpos`
carries no load-time behavior (spec §4.3) and is omitted. -/
structure IndexEntry where
  fieldValue : List Nat
  identifier : Int
  deleted : Bool
  deriving DecidableEq

/-- `entry.Deleted()`. -/
def IndexEntry.Deleted (e : IndexEntry) : Bool := e.deleted

/-- One step of `indexEntry.ReadFrom` during replay: either a decoded entry or
a decode error that is not clean end-of-file; end-of-file is the end of the
list. -/
inductive LogToken where
  | good (e : IndexEntry)
  | bad (e : String)
  deriving DecidableEq

/-- Modelled from the spec: the IndexTable maps fieldValue to a set of
identifiers (the `index` type lives in a repository file not under `src/`);
here it is the list of its (fieldValue, identifier) pairs, kept duplicate-free
by `indexAdd`. -/
abbrev Index := List (List Nat × Int)

/-- Modelled from the spec: `newIndex` starts empty. -/
def newIndex : Index := []

/-- Modelled from the spec: `idx.Add(entry)` inserts the mapping
`fieldValue → identifier`, a no-op when the pair is already present. -/
def indexAdd (t : Index) (e : IndexEntry) : Index :=
  if (e.fieldValue, e.identifier) ∈ t then t else t ++ [(e.fieldValue, e.identifier)]

/-- The replay loop of `loadIndex` (`collection.go`): decode entries until
end-of-file, calling `Add` on each entry that is not deleted (tombstones are
skipped); a decode error other than end-of-file is returned. -/
def replayLoop : List LogToken → Index → Except String Index
  | [], idx => Except.ok idx
  | LogToken.bad e :: _, _ => Except.error e
  | LogToken.good en :: rest, idx =>
      replayLoop rest (if en.Deleted then idx else indexAdd idx en)

/-- `loadIndex` (`collection.go`) on the content of one log file: replay it
into a fresh table. (The `os.Open` step is filesystem plumbing outside the
model; the log content is given directly.) -/
def loadIndex (toks : List LogToken) : Except String Index :=
  replayLoop toks newIndex

/-- `loadIndexes` (`collection.go`): walk the index directory; each file that
replays cleanly is recorded under its field name; a file whose replay fails is
logged and skipped, leaving that field's table absent, and the walk goes on. -/
def loadIndexes (files : List (String × List LogToken)) : List (String × Index) :=
  files.foldl
    (fun acc f =>
      match loadIndex f.2 with
      | Except.ok idx => upsertKV acc f.1 idx
      | Except.error _ => acc)
    []

/-- The collection: store handle, in-memory index tables, the set of index log
files on disk, and fault injection for `os.Remove`. -/
structure Collection where
  store : SStore
  indexes : List (String × Index)
  indexFiles : List String
  removeFail : List String
  deriving DecidableEq

/-- Two's-complement wrap-around of Go `int64` arithmetic. -/
def wrap64 (x : Int) : Int :=
  (x + 9223372036854775808) % 18446744073709551616 - 9223372036854775808

/-- `setNextId` (`collection.go`): persist the counter under `"_next_id"`,
varint-encoded; the write error is discarded by the Go code. -/
def Collection.setNextId (c : Collection) (nid : Int) : Collection :=
  { c with store := (c.store.write "_next_id" (Blob.varintOf nid)).2 }

/-- `getNextId` (`collection.go`): read the counter (errors ignored), persist
its `int64` successor, and return the value read. -/
def Collection.getNextId (c : Collection) : Int × Collection :=
  let nid := varintRead (c.store.read "_next_id")
  (nid, c.setNextId (wrap64 (nid + 1)))

/-- The outcome of the external `json.Marshal` call on the inserted value. -/
inductive MarshalResult where
  | ok (payload : String)
  | err (e : String)
  deriving DecidableEq

/-- `Insert` (`collection.go`): marshal, allocate an identifier, write the
record under its decimal key; on write failure roll the counter back to the
allocated identifier and return identifier 0 with the error. -/
def Collection.Insert (c : Collection) (v : MarshalResult) :
    Int × Option String × Collection :=
  match v with
  | MarshalResult.err e => (0, some e, c)
  | MarshalResult.ok payload =>
      let p := c.getNextId
      let w := p.2.store.write (toString p.1) (Blob.jsonOf payload)
      let c2 : Collection := { p.2 with store := w.2 }
      match w.1 with
      | none => (p.1, none, c2)
      | some e => (0, some e, c2.setNextId p.1)

/-- `Update` (`collection.go`): marshal and overwrite the record's key. -/
def Collection.Update (c : Collection) (id : Int) (v : MarshalResult) :
    Option String × Collection :=
  match v with
  | MarshalResult.err e => (some e, c)
  | MarshalResult.ok payload =>
      let w := c.store.write (toString id) (Blob.jsonOf payload)
      (w.1, { c with store := w.2 })

/-- `Delete` (`collection.go`): erase the record's key from the store. -/
def Collection.Delete (c : Collection) (id : Int) : Option String × Collection :=
  let w := c.store.erase (toString id)
  (w.1, { c with store := w.2 })

/-- `AddIndex` (`collection.go`): a stub that unconditionally returns the error
"adding index failed" without touching any state. -/
def Collection.AddIndex (c : Collection) (_field : String) :
    Option String × Collection :=
  (some "adding index failed", c)

/-- `RemoveIndex` (`collection.go`): drop the in-memory table first, then
remove the backing log file; a failing `os.Remove` returns the error, and the
in-memory removal is not rolled back. -/
def Collection.RemoveIndex (c : Collection) (field : String) :
    Option String × Collection :=
  let c1 : Collection := { c with indexes := eraseKV c.indexes field }
  if field ∈ c.removeFail then (some "i/o error", c1)
  else (none, { c1 with indexFiles := c1.indexFiles.filter (fun f => f ≠ field) })

/-- `Reindex` (`collection.go`): `RemoveIndex` then `AddIndex`. -/
def Collection.Reindex (c : Collection) (field : String) :
    Option String × Collection :=
  match c.RemoveIndex field with
  | (some e, c1) => (some e, c1)
  | (none, c1) => c1.AddIndex field

/-- Modelled from the spec: the predicate-tree type; only the always-true
variant is exercised by the code under `src/`. -/
inductive Condition where
  | TrueCond
  deriving DecidableEq

/-- Modelled from the spec: the query result-set type (never constructed by
the code under `src/`, whose `Query` is a stub; Go's nil result is `none`). -/
structure QResult where
  ids : List Int
  deriving DecidableEq

/-- `Query` (`collection.go`): a stub that unconditionally returns a nil
result and the error "query failed". -/
def Collection.Query (_c : Collection) (_q : Condition) :
    Option QResult × Option String :=
  (none, some "query failed")

/-- `QueryAll` (`collection.go`): `Query` with the always-true condition. -/
def Collection.QueryAll (c : Collection) : Option QResult × Option String :=
  c.Query Condition.TrueCond

/-- `Vacuum` (`collection.go`): a no-op. -/
def Collection.Vacuum (_c : Collection) : Option String := none

/-- `openColl` (`collection.go`): build the collection over the given store,
replay the index files found under the index path, and, when reading
`"_next_id"` fails (diskv's read fails exactly on a missing key), initialize
the counter to 1. (Directory creation is filesystem plumbing outside the
model; the walked index files are given as (name, content) pairs.) -/
def openColl (st : SStore) (files : List (String × List LogToken))
    (rmFail : List String) : Collection :=
  let c : Collection :=
    { store := st, indexes := loadIndexes files,
      indexFiles := files.map Prod.fst, removeFail := rmFail }
  match st.read "_next_id" with
  | some _ => c
  | none => c.setNextId 1

/-- A run of successive `Insert` calls whose values all marshal successfully,
returning the identifiers in call order. -/
def insertSeq (c : Collection) : Nat → List Int × Collection
  | 0 => ([], c)
  | Nat.succ k =>
      let r := c.Insert (MarshalResult.ok "v")
      let rest := insertSeq r.2.2 k
      (r.1 :: rest.1, rest.2)

/-- A concrete collection with a `"color"` index whose backing log file
removal fails, used to instantiate theorems on a concrete input. -/
def collColorIndexed : Collection :=
  { store := { data := [], failKeys := [] },
    indexes := [("color", [([0], 1)])], indexFiles := ["color"],
    removeFail := ["color"] }

/-- A concrete collection whose counter holds 5 and whose next record write
(the key `"5"`) fails, used to instantiate theorems on a concrete input. -/
def collWriteFails : Collection :=
  { store := { data := [("_next_id", Blob.varintOf 5)], failKeys := ["5"] },
    indexes := [], indexFiles := [], removeFail := [] }

/-! ### Association-list lemmas -/

theorem lookupKV_upsertKV_self {α : Type} (l : List (String × α)) (k : String) (v : α) :
    lookupKV (upsertKV l k v) k = some v := by
  induction l with
  | nil => simp [upsertKV, lookupKV]
  | cons p rest ih =>
      by_cases h : p.1 = k
      · simp [upsertKV, lookupKV, h]
      · simp [upsertKV, lookupKV, h, ih]

theorem lookupKV_upsertKV_ne {α : Type} (l : List (String × α)) (k k' : String) (v : α)
    (h : k' ≠ k) : lookupKV (upsertKV l k v) k' = lookupKV l k' := by
  have h2 : k ≠ k' := Ne.symm h
  induction l with
  | nil => simp [upsertKV, lookupKV, h2]
  | cons p rest ih =>
      by_cases hp : p.1 = k
      · simp [upsertKV, lookupKV, hp, h2]
      · simp [upsertKV, lookupKV, hp, ih]

theorem lookupKV_eraseKV_self {α : Type} (l : List (String × α)) (k : String) :
    lookupKV (eraseKV l k) k = none := by
  induction l with
  | nil => simp [eraseKV, lookupKV]
  | cons p rest ih =>
      by_cases h : p.1 = k
      · simpa [eraseKV, lookupKV, h] using ih
      · simpa [eraseKV, lookupKV, h] using ih

/-! ### Replay lemmas -/

theorem replayLoop_error (es : List IndexEntry) (eMsg : String) (rest : List LogToken)
    (idx : Index) :
    replayLoop (es.map LogToken.good ++ LogToken.bad eMsg :: rest) idx
      = Except.error eMsg := by
  induction es generalizing idx with
  | nil => simp [replayLoop]
  | cons e tail ih => simp [replayLoop, ih]

theorem replayLoop_skip_deleted (pre post : List LogToken) (d : IndexEntry) (idx : Index)
    (hd : d.deleted = true) :
    replayLoop (pre ++ LogToken.good d :: post) idx = replayLoop (pre ++ post) idx := by
  induction pre generalizing idx with
  | nil => simp [replayLoop, IndexEntry.Deleted, hd]
  | cons t rest ih =>
      cases t with
      | bad e => simp [replayLoop]
      | good en => simp [replayLoop, ih]

theorem replayLoop_goods (es : List IndexEntry) (idx : Index)
    (hnd : ∀ e ∈ es, e.deleted = false)
    (hfresh : ∀ e ∈ es, (e.fieldValue, e.identifier) ∉ idx)
    (hdis : (es.map fun e => (e.fieldValue, e.identifier)).Nodup) :
    replayLoop (es.map LogToken.good) idx
      = Except.ok (idx ++ es.map fun e => (e.fieldValue, e.identifier)) := by
  induction es generalizing idx with
  | nil => simp [replayLoop]
  | cons e tail ih =>
      have hde : e.deleted = false := hnd e (by simp)
      have hfe : (e.fieldValue, e.identifier) ∉ idx := hfresh e (by simp)
      have hstep : indexAdd idx e = idx ++ [(e.fieldValue, e.identifier)] := by
        simp [indexAdd, hfe]
      have hdis2 :
          ((e.fieldValue, e.identifier) ∉
              tail.map fun x => (x.fieldValue, x.identifier)) ∧
            (tail.map fun x => (x.fieldValue, x.identifier)).Nodup := by
        rw [List.map_cons] at hdis
        exact List.nodup_cons.mp hdis
      have hfresh2 : ∀ x ∈ tail,
          (x.fieldValue, x.identifier) ∉ idx ++ [(e.fieldValue, e.identifier)] := by
        intro x hx
        have h1 : (x.fieldValue, x.identifier) ∉ idx := hfresh x (by simp [hx])
        have h2 : (x.fieldValue, x.identifier) ≠ (e.fieldValue, e.identifier) := by
          intro hcontra
          apply hdis2.1
          rw [← hcontra]
          exact List.mem_map_of_mem _ hx
        simp [h1, h2]
      have := ih (idx ++ [(e.fieldValue, e.identifier)])
        (fun x hx => hnd x (by simp [hx])) hfresh2 hdis2.2
      simp [replayLoop, IndexEntry.Deleted, hde, hstep, this]

theorem lookupKV_loadIndexes_foldl (files : List (String × List LogToken))
    (acc : List (String × Index)) (f : String)
    (hnames : ∀ p ∈ files, p.1 ≠ f) (hacc : lookupKV acc f = none) :
    lookupKV
      (files.foldl
        (fun acc p =>
          match loadIndex p.2 with
          | Except.ok idx => upsertKV acc p.1 idx
          | Except.error _ => acc) acc) f = none := by
  induction files generalizing acc with
  | nil => simpa using hacc
  | cons p rest ih =>
      have hp : p.1 ≠ f := hnames p (by simp)
      have hrest : ∀ q ∈ rest, q.1 ≠ f := fun q hq => hnames q (by simp [hq])
      cases hload : loadIndex p.2 with
      | ok idx =>
          have : lookupKV (upsertKV acc p.1 idx) f = none := by
            rw [lookupKV_upsertKV_ne _ _ _ _ (fun h => hp h.symm)]
            exact hacc
          simpa [hload] using ih (upsertKV acc p.1 idx) hrest this
      | error e => simpa [hload] using ih acc hrest hacc

/-! ### Allocator lemmas -/

theorem wrap64_eq_self (x : Int) (h1 : -9223372036854775808 ≤ x)
    (h2 : x ≤ 9223372036854775807) : wrap64 x = x := by
  unfold wrap64
  omega

/-- One successful `Insert` on a collection whose counter holds `n` and whose
store has no write faults: it returns `n` with no error, stores the record
under the decimal key of `n`, and advances the counter to the `int64`
successor of `n`. -/
theorem insert_ok_step (c : Collection) (n : Int) (p : String)
    (hread : c.store.read "_next_id" = some (Blob.varintOf n))
    (hok : c.store.failKeys = []) :
    c.Insert (MarshalResult.ok p) =
      (n, none,
        { store :=
            { data := upsertKV
                (upsertKV c.store.data "_next_id" (Blob.varintOf (wrap64 (n + 1))))
                (toString n) (Blob.jsonOf p),
              failKeys := c.store.failKeys },
          indexes := c.indexes, indexFiles := c.indexFiles,
          removeFail := c.removeFail }) := by
  simp only [Collection.Insert, Collection.getNextId, Collection.setNextId, SStore.write]
  simp [hread, varintRead, hok]

/-! ### The decimal record keys never collide with the metadata key -/

theorem digitChar_ne_underscore (m : Nat) : Nat.digitChar m ≠ '_' := by
  rcases Nat.lt_or_ge m 16 with h | h
  · interval_cases m <;> decide
  · have hstar : Nat.digitChar m = '*' := by
      rw [Nat.digitChar]
      iterate 16 rw [if_neg (by omega)]
    rw [hstar]
    decide

theorem toDigitsCore_ne_underscore (b fuel : Nat) : ∀ (n : Nat) (acc : List Char),
    (∀ c ∈ acc, c ≠ '_') → ∀ c ∈ Nat.toDigitsCore b fuel n acc, c ≠ '_' := by
  induction fuel with
  | zero => intro n acc hacc c hc; exact hacc c (by simpa [Nat.toDigitsCore] using hc)
  | succ fuel ih =>
      intro n acc hacc c hc
      rw [Nat.toDigitsCore] at hc
      by_cases hz : n / b = 0
      · simp only [hz, if_pos rfl] at hc
        rcases List.mem_cons.mp hc with h | h
        · rw [h]; exact digitChar_ne_underscore _
        · exact hacc c h
      · simp only [if_neg hz] at hc
        refine ih (n / b) (Nat.digitChar (n % b) :: acc) ?_ c hc
        intro d hd
        rcases List.mem_cons.mp hd with h | h
        · rw [h]; exact digitChar_ne_underscore _
        · exact hacc d h

/-- `fmt.Sprintf("%d", id)` never produces the reserved key `"_next_id"`: a
decimal rendering contains no underscore. -/
theorem int_toString_ne_metadata (n : Int) : toString n ≠ "_next_id" := by
  intro h
  have hmem : '_' ∈ (toString n).data := by
    rw [h]; decide
  cases n with
  | ofNat m =>
      have h2 : '_' ∈ Nat.toDigits 10 m := hmem
      exact toDigitsCore_ne_underscore 10 (m + 1) m [] (by simp) '_' h2 rfl
  | negSucc m =>
      have h2 : '_' ∈ ('-' :: Nat.toDigits 10 (m + 1)) := hmem
      rcases List.mem_cons.mp h2 with h3 | h3
      · exact absurd h3 (by decide)
      · exact toDigitsCore_ne_underscore 10 (m + 2) (m + 1) [] (by simp) '_' h3 rfl

/-! ### Claim theorems -/

/-- C6: `shard` of the reserved key `"_next_id"` is the empty segment
sequence; for every other key of length at least 4, it is exactly the two
2-character segments derived from the key's last 4 characters, tail pair
first: `[last4[2:4], last4[0:2]]`. -/
theorem c6_shard_spec (s : List Char)
    (hne : s ≠ String.toList "_next_id") (hlen : 4 ≤ s.length) :
    transformFunc (String.toList "_next_id") = [] ∧
    transformFunc s =
      [((s.drop (s.length - 4)).drop 2).take 2, (s.drop (s.length - 4)).take 2] ∧
    (((s.drop (s.length - 4)).drop 2).take 2).length = 2 ∧
    ((s.drop (s.length - 4)).take 2).length = 2 := by
  have hne' : s ≠ ['_', 'n', 'e', 'x', 't', '_', 'i', 'd'] := by
    simpa only [show String.toList "_next_id" = ['_', 'n', 'e', 'x', 't', '_', 'i', 'd']
      from rfl] using hne
  refine ⟨by decide, ?_, ?_, ?_⟩
  · simp [transformFunc, hne', Nat.not_lt.mpr hlen]
  · simp only [List.length_take, List.length_drop]
    omega
  · simp only [List.length_take, List.length_drop]
    omega

theorem c6_shard_spec_witness :
    (['a', 'b', 'c', 'd', 'e', 'f'] ≠ String.toList "_next_id") ∧
    4 ≤ (['a', 'b', 'c', 'd', 'e', 'f'] : List Char).length ∧
    (transformFunc (String.toList "_next_id") = [] ∧
      transformFunc ['a', 'b', 'c', 'd', 'e', 'f'] =
        [((['a', 'b', 'c', 'd', 'e', 'f'].drop 2).drop 2).take 2,
          (['a', 'b', 'c', 'd', 'e', 'f'].drop 2).take 2] ∧
      (((['a', 'b', 'c', 'd', 'e', 'f'].drop 2).drop 2).take 2).length = 2 ∧
      ((['a', 'b', 'c', 'd', 'e', 'f'].drop 2).take 2).length = 2) :=
  ⟨by decide, by decide, c6_shard_spec ['a', 'b', 'c', 'd', 'e', 'f'] (by decide) (by decide)⟩

/-- C7 as stated is false: for short keys the code pads on the left with the
digit `'0'` (Go's fmt zero flag), not with the space character. On key `"ab"`
the shard is `[['a','b'], ['0','0']]`, whereas deriving the segments from the
space-padded `"  ab"` would give `[['a','b'], [' ',' ']]`. -/
theorem c7_shard_pad_counterexample :
    transformFunc ['a', 'b'] = [['a', 'b'], ['0', '0']] ∧
    transformFunc ['a', 'b'] ≠
      [((List.replicate 2 ' ' ++ ['a', 'b']).drop 2).take 2,
        (List.replicate 2 ' ' ++ ['a', 'b']).take 2] := by
  constructor
  · rfl
  · decide

/-- C7 amended: for every non-metadata key shorter than 4 characters, `shard`
derives its two segments from the key left-padded with the character `'0'`
(not the space character) to length 4. -/
theorem c7_shard_pad_amended (s : List Char)
    (hne : s ≠ String.toList "_next_id") (hlen : s.length < 4) :
    transformFunc s =
      [((List.replicate (4 - s.length) '0' ++ s).drop 2).take 2,
        (List.replicate (4 - s.length) '0' ++ s).take 2] := by
  have hne' : s ≠ ['_', 'n', 'e', 'x', 't', '_', 'i', 'd'] := by
    simpa only [show String.toList "_next_id" = ['_', 'n', 'e', 'x', 't', '_', 'i', 'd']
      from rfl] using hne
  simp [transformFunc, sprintf04s, hne', hlen]

theorem c7_shard_pad_amended_witness :
    (['a', 'b'] ≠ String.toList "_next_id") ∧
    (['a', 'b'] : List Char).length < 4 ∧
    transformFunc ['a', 'b'] =
      [((List.replicate (4 - (['a', 'b'] : List Char).length) '0' ++ ['a', 'b']).drop 2).take 2,
        (List.replicate (4 - (['a', 'b'] : List Char).length) '0' ++ ['a', 'b']).take 2] :=
  ⟨by decide, by decide, c7_shard_pad_amended ['a', 'b'] (by decide) (by decide)⟩

/-- C1 as stated is false on two counts. First, replay of two appended
non-deleted entries with the same (fieldValue, identifier) pair yields one
mapping, not two. Second, and decisively, the replay loop of `loadIndex` skips
tombstone entries entirely (`Add` is only called on non-deleted entries), so
appending a tombstone for an existing mapping leaves that mapping present in
the replayed table instead of removing it. -/
theorem c1_replay_counterexample :
    loadIndex
        [LogToken.good { fieldValue := [0], identifier := 1, deleted := false },
          LogToken.good { fieldValue := [0], identifier := 1, deleted := false }]
      = Except.ok [([0], 1)] ∧
    loadIndex
        [LogToken.good { fieldValue := [0], identifier := 1, deleted := false },
          LogToken.good { fieldValue := [0], identifier := 1, deleted := true }]
      = Except.ok [([0], 1)] ∧
    (([0], 1) ∈ ([([0], 1)] : Index)) :=
  ⟨rfl, rfl, by decide⟩

/-- C1 amended: replaying a log of N appended non-deleted entries with
pairwise distinct (fieldValue, identifier) pairs yields a table holding
exactly those N mappings; a tombstone entry anywhere in the log is skipped by
replay and leaves the replayed table unchanged — in particular a tombstone for
an existing mapping does not remove it (and one whose target is absent is
likewise a no-op). -/
theorem c1_replay_amended (es : List IndexEntry) (pre post : List LogToken)
    (d : IndexEntry)
    (hnd : ∀ e ∈ es, e.deleted = false)
    (hdis : (es.map fun e => (e.fieldValue, e.identifier)).Nodup)
    (hd : d.deleted = true) :
    loadIndex (es.map LogToken.good)
        = Except.ok (es.map fun e => (e.fieldValue, e.identifier)) ∧
    (es.map fun e => (e.fieldValue, e.identifier)).length = es.length ∧
    loadIndex (pre ++ LogToken.good d :: post) = loadIndex (pre ++ post) := by
  refine ⟨?_, List.length_map _ _, replayLoop_skip_deleted pre post d newIndex hd⟩
  simpa [loadIndex, newIndex] using
    replayLoop_goods es [] hnd (by simp) hdis

theorem c1_replay_amended_witness :
    (∀ e ∈ [({ fieldValue := [0], identifier := 1, deleted := false } : IndexEntry),
        { fieldValue := [1], identifier := 2, deleted := false }], e.deleted = false) ∧
    (([({ fieldValue := [0], identifier := 1, deleted := false } : IndexEntry),
        { fieldValue := [1], identifier := 2, deleted := false }].map
          fun e => (e.fieldValue, e.identifier)).Nodup) ∧
    (({ fieldValue := [0], identifier := 1, deleted := true } : IndexEntry).deleted = true) ∧
    (loadIndex
        ([({ fieldValue := [0], identifier := 1, deleted := false } : IndexEntry),
            { fieldValue := [1], identifier := 2, deleted := false }].map LogToken.good)
      = Except.ok
          ([({ fieldValue := [0], identifier := 1, deleted := false } : IndexEntry),
              { fieldValue := [1], identifier := 2, deleted := false }].map
            fun e => (e.fieldValue, e.identifier)) ∧
    (([({ fieldValue := [0], identifier := 1, deleted := false } : IndexEntry),
        { fieldValue := [1], identifier := 2, deleted := false }].map
          fun e => (e.fieldValue, e.identifier)).length
      = [({ fieldValue := [0], identifier := 1, deleted := false } : IndexEntry),
          { fieldValue := [1], identifier := 2, deleted := false }].length) ∧
    loadIndex
        ([LogToken.good { fieldValue := [0], identifier := 1, deleted := false }]
          ++ LogToken.good { fieldValue := [0], identifier := 1, deleted := true } :: [])
      = loadIndex ([LogToken.good { fieldValue := [0], identifier := 1, deleted := false }] ++ [])) :=
  ⟨by decide, by decide, by decide,
    c1_replay_amended
      [{ fieldValue := [0], identifier := 1, deleted := false },
        { fieldValue := [1], identifier := 2, deleted := false }]
      [LogToken.good { fieldValue := [0], identifier := 1, deleted := false }] []
      { fieldValue := [0], identifier := 1, deleted := true }
      (by decide) (by decide) (by decide)⟩

/-- C8: a decode error other than clean end-of-file is propagated out of the
replay (`loadIndex` returns it, it is not swallowed); the caller
(`loadIndexes`) leaves that field's IndexTable absent and keeps going, loading
the indexes of the other fields exactly as if the corrupt file were not
there. -/
theorem c8_corrupt_log_propagates (es : List IndexEntry) (eMsg : String)
    (rest : List LogToken) (files1 files2 : List (String × List LogToken)) (f : String)
    (hf1 : ∀ p ∈ files1, p.1 ≠ f) (hf2 : ∀ p ∈ files2, p.1 ≠ f) :
    loadIndex (es.map LogToken.good ++ LogToken.bad eMsg :: rest) = Except.error eMsg ∧
    lookupKV
        (loadIndexes
          (files1 ++ (f, es.map LogToken.good ++ LogToken.bad eMsg :: rest) :: files2))
        f = none ∧
    loadIndexes (files1 ++ (f, es.map LogToken.good ++ LogToken.bad eMsg :: rest) :: files2)
      = loadIndexes (files1 ++ files2) := by
  have herr : loadIndex (es.map LogToken.good ++ LogToken.bad eMsg :: rest)
      = Except.error eMsg := replayLoop_error es eMsg rest newIndex
  have hsame : loadIndexes
      (files1 ++ (f, es.map LogToken.good ++ LogToken.bad eMsg :: rest) :: files2)
      = loadIndexes (files1 ++ files2) := by
    unfold loadIndexes
    rw [List.foldl_append, List.foldl_append, List.foldl_cons]
    simp [herr]
  refine ⟨herr, ?_, hsame⟩
  rw [hsame]
  unfold loadIndexes
  apply lookupKV_loadIndexes_foldl
  · intro p hp
    rcases List.mem_append.mp hp with h | h
    · exact hf1 p h
    · exact hf2 p h
  · simp [lookupKV]

theorem c8_corrupt_log_propagates_witness :
    (∀ p ∈ [("g", ([] : List LogToken))], p.1 ≠ "f") ∧
    (∀ p ∈ ([] : List (String × List LogToken)), p.1 ≠ "f") ∧
    (loadIndex (([] : List IndexEntry).map LogToken.good ++ LogToken.bad "boom" :: [])
        = Except.error "boom" ∧
    lookupKV
        (loadIndexes
          ([("g", ([] : List LogToken))] ++
            ("f", ([] : List IndexEntry).map LogToken.good ++ LogToken.bad "boom" :: []) :: []))
        "f" = none ∧
    loadIndexes
        ([("g", ([] : List LogToken))] ++
          ("f", ([] : List IndexEntry).map LogToken.good ++ LogToken.bad "boom" :: []) :: [])
      = loadIndexes ([("g", ([] : List LogToken))] ++ [])) :=
  ⟨by decide, by decide,
    c8_corrupt_log_propagates [] "boom" [] [("g", [])] [] "f" (by decide) (by decide)⟩

/-- C2: the code violates the claim. `Query` is a stub that unconditionally
fails, so `QueryAll` on a collection holding the records `1 ↦ "a"` and
`2 ↦ "b"` returns a nil result set and the error "query failed" instead of the
stored identifiers — index or no index. -/
theorem c2_queryAll_fails :
    Collection.QueryAll
        { store :=
            { data := [("_next_id", Blob.varintOf 3),
                ("1", Blob.jsonOf "a"), ("2", Blob.jsonOf "b")],
              failKeys := [] },
          indexes := [], indexFiles := [], removeFail := [] }
      = (none, some "query failed") := rfl

/-- C3: the code violates the claim. `AddIndex` is a stub that returns the
error "adding index failed" for every collection and field, touching nothing;
it never scans the records or creates an IndexLog. -/
theorem c3_addIndex_always_fails (c : Collection) (field : String) :
    c.AddIndex field = (some "adding index failed", c) := rfl

/-- C9: `RemoveIndex` drops the in-memory IndexTable first and attempts the
file removal second; when `os.Remove` fails, the error is returned and the
in-memory removal is not rolled back, so the field's table is absent in the
resulting collection. -/
theorem c9_removeIndex_no_rollback (c : Collection) (field : String)
    (hfail : field ∈ c.removeFail) :
    ((c.RemoveIndex field).1).isSome = true ∧
    lookupKV ((c.RemoveIndex field).2).indexes field = none := by
  unfold Collection.RemoveIndex
  simp [hfail, lookupKV_eraseKV_self]

theorem c9_removeIndex_no_rollback_witness :
    ("color" ∈ collColorIndexed.removeFail) ∧
    (((collColorIndexed.RemoveIndex "color").1).isSome = true ∧
      lookupKV ((collColorIndexed.RemoveIndex "color").2).indexes "color" = none) :=
  ⟨by decide, c9_removeIndex_no_rollback collColorIndexed "color" (by decide)⟩

/-- C4: when the value marshals, the allocator hands out the counter value
`n`, and the store write of the record fails, `Insert` returns the invalid
identifier 0 together with the error, the persisted `"_next_id"` counter is
rolled back to `n`, and the next allocation returns `n` again. -/
theorem c4_insert_rollback (c : Collection) (n : Int) (p : String)
    (hread : c.store.read "_next_id" = some (Blob.varintOf n))
    (hmeta : "_next_id" ∉ c.store.failKeys)
    (hrec : toString n ∈ c.store.failKeys) :
    (c.Insert (MarshalResult.ok p)).1 = 0 ∧
    ((c.Insert (MarshalResult.ok p)).2.1).isSome = true ∧
    ((c.Insert (MarshalResult.ok p)).2.2).store.read "_next_id"
      = some (Blob.varintOf n) ∧
    (((c.Insert (MarshalResult.ok p)).2.2).getNextId).1 = n := by
  have hread2 : lookupKV c.store.data "_next_id" = some (Blob.varintOf n) := hread
  simp only [Collection.Insert, Collection.getNextId, Collection.setNextId,
    SStore.write, SStore.read]
  simp [hread2, varintRead, hmeta, hrec, lookupKV_upsertKV_self]

theorem c4_insert_rollback_witness :
    collWriteFails.store.read "_next_id" = some (Blob.varintOf 5) ∧
    "_next_id" ∉ collWriteFails.store.failKeys ∧
    toString (5 : Int) ∈ collWriteFails.store.failKeys ∧
    ((collWriteFails.Insert (MarshalResult.ok "p")).1 = 0 ∧
      ((collWriteFails.Insert (MarshalResult.ok "p")).2.1).isSome = true ∧
      ((collWriteFails.Insert (MarshalResult.ok "p")).2.2).store.read "_next_id"
        = some (Blob.varintOf 5) ∧
      (((collWriteFails.Insert (MarshalResult.ok "p")).2.2).getNextId).1 = 5) :=
  ⟨by decide, by decide, by decide,
    c4_insert_rollback collWriteFails 5 "p" (by decide) (by decide) (by decide)⟩

/-- Identifiers returned by a run of successful `Insert` calls starting from a
counter holding `n ≥ 1`: the `j`-th call returns `n + j`, as long as the
counter stays inside the `int64` range. -/
theorem insertSeq_ids (k : Nat) : ∀ (c : Collection) (n : Int),
    c.store.read "_next_id" = some (Blob.varintOf n) →
    c.store.failKeys = [] →
    1 ≤ n → n + k ≤ 9223372036854775808 →
    (insertSeq c k).1 = (List.range k).map (fun i : Nat => n + (i : Int)) := by
  induction k with
  | zero => intro c n _ _ _ _; simp [insertSeq]
  | succ k ih =>
      intro c n hread hok h1 hk
      have hstep := insert_ok_step c n "v" hread hok
      have hcons : (insertSeq c (k + 1)).1
          = n :: (insertSeq (c.Insert (MarshalResult.ok "v")).2.2 k).1 := by
        simp only [insertSeq]
        rw [hstep]
      rcases Nat.eq_zero_or_pos k with hk0 | hkpos
      · subst hk0
        rw [hcons]
        simp [insertSeq, List.range_succ]
      · have hwrap : wrap64 (n + 1) = n + 1 := by
          apply wrap64_eq_self
          · omega
          · have : (k : Int) ≥ 1 := by exact_mod_cast hkpos
            push_cast at hk
            omega
        have hread' : ((c.Insert (MarshalResult.ok "v")).2.2).store.read "_next_id"
            = some (Blob.varintOf (n + 1)) := by
          rw [hstep]
          simp only [SStore.read]
          rw [lookupKV_upsertKV_ne _ _ _ _ (Ne.symm (int_toString_ne_metadata n))]
          rw [lookupKV_upsertKV_self, hwrap]
        have hok' : ((c.Insert (MarshalResult.ok "v")).2.2).store.failKeys = [] := by
          rw [hstep]
          exact hok
        have htail := ih ((c.Insert (MarshalResult.ok "v")).2.2) (n + 1) hread' hok'
          (by omega) (by push_cast at hk ⊢; omega)
        rw [hcons, htail, List.range_succ_eq_map, List.map_cons, List.map_map]
        have hzero : n + ((0 : Nat) : Int) = n := by norm_num
        rw [hzero]
        congr 1
        apply List.map_congr_left
        intro i _
        simp only [Function.comp_apply]
        push_cast
        ring

/-- C5: opening a collection whose `"_next_id"` key is absent initializes the
persisted counter to 1, and `k` successive successful `Insert` calls (no
rollback, counter within the `int64` range) then return the strictly
increasing identifiers 1, 2, ..., k. -/
theorem c5_counter_init_and_monotonic (st : SStore)
    (files : List (String × List LogToken)) (rmFail : List String) (k : Nat)
    (habsent : st.read "_next_id" = none)
    (hok : st.failKeys = [])
    (hk : (k : Int) ≤ 9223372036854775807) :
    (openColl st files rmFail).store.read "_next_id" = some (Blob.varintOf 1) ∧
    (insertSeq (openColl st files rmFail) k).1
      = (List.range k).map (fun i : Nat => 1 + (i : Int)) := by
  have hopen : (openColl st files rmFail).store
      = { data := upsertKV st.data "_next_id" (Blob.varintOf 1),
          failKeys := st.failKeys } := by
    simp only [openColl, Collection.setNextId, SStore.write]
    rw [habsent]
    simp [hok]
  have hread : (openColl st files rmFail).store.read "_next_id"
      = some (Blob.varintOf 1) := by
    rw [hopen]
    simp only [SStore.read]
    exact lookupKV_upsertKV_self _ _ _
  refine ⟨hread, ?_⟩
  apply insertSeq_ids k _ 1 hread
  · rw [hopen]; exact hok
  · omega
  · omega

theorem c5_counter_init_and_monotonic_witness :
    (SStore.read { data := [], failKeys := [] } "_next_id" = none) ∧
    (SStore.failKeys { data := [], failKeys := [] } = []) ∧
    (((2 : Nat) : Int) ≤ 9223372036854775807) ∧
    ((openColl { data := [], failKeys := [] } [] []).store.read "_next_id"
        = some (Blob.varintOf 1) ∧
      (insertSeq (openColl { data := [], failKeys := [] } [] []) 2).1
        = (List.range 2).map (fun i : Nat => 1 + (i : Int))) :=
  ⟨by decide, by decide, by decide,
    c5_counter_init_and_monotonic { data := [], failKeys := [] } [] [] 2
      (by decide) (by decide) (by decide)⟩

/-- C10: when `json.Marshal` fails, `Insert` returns identifier 0 and the
serialization error with the collection completely unchanged — in particular
the persisted `"_next_id"` counter and the stored records are untouched, and
no identifier is allocated. -/
theorem c10_insert_marshal_fail (c : Collection) (e : String) :
    c.Insert (MarshalResult.err e) = (0, some e, c) := rfl

end Epos
